import Mathlib

/-!
Verification development for the `vue-class-api` repository.

The repository's only non-trivial component is the class-to-options compiler
`Component` in `src/index` (the variant that merges decorator metadata with a
conventional options object via object spreads; the claims cite its lines
73..186), together with the member decorators `Prop`, `Emits`, `Expose`,
`Watch`, `Ref`, `Provide`, `Inject` and `Hook` that populate the per-class
metadata store.

Embedding conventions:
* JavaScript objects are modelled as insertion-ordered association lists
  `List (String × α)`; `jsLookup`/`jsSet`/`jsSpread` model property read,
  property assignment and the object-spread literal `\x7b ...m, ...o \x7d`.
* Functions (handlers, methods) are identified by `Nat` tokens; classes by a
  `Nat` `classId`.
* `options.data` is modelled as a factory returning a fixed object (the
  source calls `optionsData?.call(this, vm)`; only its returned object
  matters to the claims).
* Lifecycle hook slots on the conventional options object are modelled as
  single handler functions, matching the declared `ComponentOptions`
  interface of the source (`mounted?: () => void`, one function per slot).
* The source statement `options.emits?.forEach(emits.add)` passes the
  detached method `Set.prototype.add` to `forEach`, which invokes it with an
  `undefined` receiver and therefore raises a `TypeError` on the first
  element; the compiler is accordingly embedded as an `Except`-valued
  function.
* `ensureMetadata`-backed channels distinguish an absent channel from an
  empty one where the source does (`expose`, `hooks`); for the channels the
  source immediately defaults (`|| \x7b\x7d`, `|| []`, spread of `undefined`)
  absence is behaviourally the empty collection and is modelled as such.
* The static-passthrough loop (source lines 171..182) is modelled as a
  separate `statics` field holding the filtered static members; a static
  member whose name collides with an options section is outside every claim
  and is not modelled.
-/

namespace VueClassApi

/-- A JavaScript value as far as the claims need one: numbers, strings,
functions (by token), class objects (by token) and `undefined`. -/
inductive JSVal where
  | num (n : Int)
  | str (s : String)
  | fnj (f : Nat)
  | clsv (c : Nat)
  | undef
  deriving DecidableEq, Repr

/-- A prop specification as stored in the `__PROPS__` channel or supplied in
`options.props`. The `Prop` decorator always stores an options object
(truthy); a conventional `options.props` entry may be the `null` shorthand
(falsy), which matters to the data classifier's `!options.props[propertyKey]`
test. -/
inductive PropSpec where
  | pspec (id : Nat)
  | pnull
  deriving DecidableEq, Repr

/-- Truthiness of a looked-up prop specification, as used by the data
classifier (`!options.props[propertyKey]`): a missing key reads as
`undefined` (falsy) and `null` is falsy. -/
def propTruthy : Option PropSpec → Bool
  | some (PropSpec.pspec _) => true
  | _ => false

/-- A value of the inject map: the `Inject` decorator stores
`\x7b from, default \x7d`; normalising a conventional inject array stores
empty objects. Both are objects, hence truthy. -/
inductive InjectVal where
  | emptyObj
  | injCfg (src : String) (dflt : Option Nat)
  deriving DecidableEq, Repr

/-- The conventional `options.inject` fragment before normalisation: an
array of names, an object map, or a malformed primitive (number, boolean,
`null`) that has no enumerable own properties. -/
inductive InjectOpts where
  | arr (names : List String)
  | obj (entries : List (String × InjectVal))
  | mal
  deriving DecidableEq, Repr

/-- An entry of the assembled `computed` section: a prototype accessor, a
conventional `options.computed` entry, or the synthetic getter installed for
a template ref. -/
inductive ComputedVal where
  | accessorC
  | fromOpts (f : Nat)
  | refGetter (r : String)
  deriving DecidableEq, Repr

/-- The `provide` slot. The compiler always replaces it with a closure over
the metadata provide map and the previously present value
(`const optionsProvide = options.provide; options.provide = function() ...`),
modelled symbolically by `assembledP`. -/
inductive ProvideV where
  | missing
  | dict (entries : List (String × Nat))
  | fnP (f : Nat)
  | assembledP (metaP : List (String × String)) (prev : ProvideV)
  deriving DecidableEq, Repr

/-- Property read `m[k]`: first entry with the key, else `undefined`. -/
def jsLookup (k : String) : List (String × α) → Option α
  | [] => none
  | p :: rest => if p.1 = k then some p.2 else jsLookup k rest

/-- Property assignment `m[k] = v`: replaces the value in place if the key
exists, otherwise appends the key at the end (JavaScript object key order). -/
def jsSet (k : String) (v : α) : List (String × α) → List (String × α)
  | [] => [(k, v)]
  | p :: rest => if p.1 = k then (k, v) :: rest else p :: jsSet k v rest

/-- Object-spread merge `\x7b ...m, ...o \x7d`: keys of `m` keep their
position but take `o`'s value on conflict; keys only in `o` follow in `o`'s
order. -/
def jsSpread (m o : List (String × α)) : List (String × α) :=
  m.map (fun p => (p.1, (jsLookup p.1 o).getD p.2)) ++
    o.filter (fun p => (jsLookup p.1 m).isNone)

/-- Insertion into a JavaScript `Set` of strings kept in insertion order. -/
def setAdd (s : List String) (x : String) : List String :=
  if x ∈ s then s else s ++ [x]

/-- Source line 22: the fifteen recognised lifecycle hook names. -/
def hookNames : List String :=
  ["beforeCreate", "created", "beforeMount", "mounted", "beforeUpdate",
   "updated", "activated", "deactivated", "beforeDestroy", "beforeUnmount",
   "destroyed", "unmounted", "renderTracked", "renderTriggered",
   "errorCaptured"]

/-- Source line 21: instance property names never classified as data. -/
def excludedProperties : List String :=
  ["provide", "inject", "name", "props", "emits", "expose", "watch",
   "computed", "mixins", "$", "$data", "$props", "$attrs", "$refs", "$slots",
   "$root", "$parent", "$emit", "$el", "$options"]

/-- Source line 20: static member names never copied onto the options. -/
def excludedClassProperties : List String :=
  ["length", "constructor", "prototype", "arguments", "callee", "caller"]

/-- The per-class metadata store (the reflect-metadata side table on the
class prototype), one field per channel of `metadataKeys`. `expose` and
`hooks` distinguish an absent channel from a present one. -/
structure Metadata where
  watch : List (String × Nat) := []
  props : List (String × PropSpec) := []
  emits : List String := []
  expose : Option (List String) := none
  ref : List String := []
  provide : List (String × String) := []
  inject : List (String × InjectVal) := []
  hooks : Option (List (String × List Nat)) := none
  deriving DecidableEq, Repr

/-- Observable shape of the user's class: its name, the own properties of a
fresh instance, the function-valued and accessor own properties of the
prototype, static members, and a static `mixins` list. -/
structure ClassShape where
  classId : Nat := 0
  className : String := ""
  instanceFields : List (String × JSVal) := []
  protoMethods : List (String × Nat) := []
  protoAccessors : List String := []
  statics : List (String × JSVal) := []
  classMixins : List Nat := []
  deriving DecidableEq, Repr

/-- The conventional options object passed to `@Component(options)`. -/
structure Options where
  provide : ProvideV := ProvideV.missing
  inject : Option InjectOpts := none
  props : List (String × PropSpec) := []
  computed : List (String × ComputedVal) := []
  data : Option (List (String × JSVal)) := none
  name : Option String := none
  emits : Option (List String) := none
  expose : Option (List String) := none
  watch : List (String × Nat) := []
  methods : List (String × Nat) := []
  hookSlots : List (String × Nat) := []
  setup : Option Nat := none
  mixins : List Nat := []
  deriving DecidableEq, Repr

/-- The closure stored in `options.data` (source lines 123..127): it captures
the picked data snapshot, the class, and the previous `options.data`. -/
structure DataRepr where
  snapshot : List (String × JSVal)
  ctor : Nat
  optsData : Option (List (String × JSVal))
  deriving DecidableEq, Repr

/-- One invocation of the assembled data factory:
`\x7b ..._.cloneDeep(data), constructor : VueClass, ...optionsData?.call(this, vm) \x7d`.
Deep-copying pure values is the identity. -/
def dataFactoryRun (d : DataRepr) : List (String × JSVal) :=
  jsSpread (jsSpread d.snapshot [("constructor", JSVal.clsv d.ctor)])
    (d.optsData.getD [])

/-- The assembled configuration object returned by the compiler. -/
structure Assembled where
  provide : ProvideV
  inject : List (String × InjectVal)
  props : List (String × PropSpec)
  computed : List (String × ComputedVal)
  dataFactory : DataRepr
  name : Option String
  emits : List String
  expose : Option (List String)
  watch : List (String × Nat)
  methods : List (String × Nat)
  hooks : List (String × List Nat)
  setup : Option Nat
  mixins : List Nat
  statics : List (String × JSVal)
  deriving DecidableEq, Repr

/-! ## The decorators (source lines 188..241) -/

/-- The `Prop` decorator (renamed: `Prop` is a Lean keyword). It stores an
options object for the member, overwriting a previous declaration:
`ensureMetadata(metadataKeys.props, \x7b\x7d, target)[propertyKey] = options`. -/
def PropD (propertyKey : String) (spec : PropSpec) (m : Metadata) : Metadata :=
  { m with props := jsSet propertyKey spec m.props }

/-- The `Emits` decorator: adds each event name to the per-class `Set`,
preserving insertion order and collapsing duplicates. -/
def Emits (eventNames : List String) (m : Metadata) : Metadata :=
  { m with emits := eventNames.foldl setAdd m.emits }

/-- The `Expose` decorator: pushes the member name onto the exposed list,
creating the channel if absent. -/
def Expose (propertyKey : String) (m : Metadata) : Metadata :=
  { m with expose := some (m.expose.getD [] ++ [propertyKey]) }

/-- The `Watch` decorator: stores the decorated handler under the watched
expression. -/
def Watch (expression : String) (handler : Nat) (m : Metadata) : Metadata :=
  { m with watch := jsSet expression handler m.watch }

/-- The `Ref` decorator: pushes the member name onto the refs list. -/
def Ref (propertyKey : String) (m : Metadata) : Metadata :=
  { m with ref := m.ref ++ [propertyKey] }

/-- The `Provide` decorator: maps the alias (default: the member name) to
the member name. -/
def Provide (aliasName : Option String) (propertyKey : String) (m : Metadata) :
    Metadata :=
  { m with provide := jsSet (aliasName.getD propertyKey) propertyKey m.provide }

/-- The `Inject` decorator: maps the member name to
`\x7b from : alias or propertyKey, default : defaultValue \x7d`. -/
def Inject (aliasName : Option String) (dflt : Option Nat) (propertyKey : String)
    (m : Metadata) : Metadata :=
  let v := InjectVal.injCfg (aliasName.getD propertyKey) dflt
  { m with inject := jsSet propertyKey v m.inject }

/-- The `Hook` decorator (source lines 235..241). When `name` is omitted the
JavaScript property access `hooks[name]` coerces `undefined` to the string
key `"undefined"`. The handler is pushed onto the list for that key. -/
def Hook (name : Option String) (handler : Nat) (m : Metadata) : Metadata :=
  let hs := m.hooks.getD []
  let key := match name with
    | some n => n
    | none => "undefined"
  let entry := (jsLookup key hs).getD [] ++ [handler]
  { m with hooks := some (jsSet key entry hs) }

/-! ## The section assemblers of `Component` (source lines 73..186) -/

/-- Source lines 90..94: normalise `options.inject`. An array is turned into
a map with empty per-key configuration (`keyBy` then `mapValues(() => (\x7b\x7d))`);
an absent value or a primitive spreads to nothing. -/
def normalizeInject : Option InjectOpts → List (String × InjectVal)
  | none => []
  | some (InjectOpts.arr names) =>
      names.foldl (fun acc n => jsSet n InjectVal.emptyObj acc) []
  | some (InjectOpts.obj entries) => entries
  | some InjectOpts.mal => []

/-- Source line 94: the assembled inject map, options winning per key. -/
def injectAssembly (meta : Metadata) (opts : Options) :
    List (String × InjectVal) :=
  jsSpread meta.inject (normalizeInject opts.inject)

/-- Source line 97: the assembled props map, options winning per key. -/
def propsAssembly (meta : Metadata) (opts : Options) :
    List (String × PropSpec) :=
  jsSpread meta.props opts.props

/-- Source lines 100..110: prototype accessors merged under
`options.computed`, then a synthetic `$refs` getter assigned per template
ref, overriding in place. -/
def computedAssembly (meta : Metadata) (cls : ClassShape) (opts : Options) :
    List (String × ComputedVal) :=
  meta.ref.foldl (fun acc r => jsSet r (ComputedVal.refGetter r) acc)
    (jsSpread (cls.protoAccessors.map fun a => (a, ComputedVal.accessorC))
      opts.computed)

/-- Source lines 113..122: the data classifier. An instance field survives
if it is not function-valued, not on the exclusion list, not a truthy entry
of the merged props, not a template ref, and not a key of the merged inject
map. -/
def dataPropsOf (meta : Metadata) (cls : ClassShape) (opts : Options) :
    List (String × JSVal) :=
  cls.instanceFields.filter fun p =>
    (match p.2 with
      | JSVal.fnj _ => false
      | _ => true)
    && !(excludedProperties.contains p.1)
    && !(propTruthy (jsLookup p.1 (propsAssembly meta opts)))
    && !(meta.ref.contains p.1)
    && !((jsLookup p.1 (injectAssembly meta opts)).isSome)

/-- Source lines 137..141: `expose` is materialised only when either source
is truthy, as the metadata list followed by the options list. -/
def exposeAssembly (meta : Metadata) (opts : Options) :
    Option (List String) :=
  if opts.expose.isSome || meta.expose.isSome then
    some (meta.expose.getD [] ++ opts.expose.getD [])
  else
    none

/-- Source lines 147..152: function-valued prototype members that are not
lifecycle hook names, merged under `options.methods`. -/
def methodsAssembly (cls : ClassShape) (opts : Options) :
    List (String × Nat) :=
  jsSpread (cls.protoMethods.filter fun p => !(hookNames.contains p.1))
    opts.methods

/-- Source lines 156..163: the hook list for one lifecycle name. The stored
metadata array (defaulting to a fresh empty one) receives `unshift`s: first
the same-named prototype method, then the conventional options handler, so
the final order is [options handler, prototype method, decorator handlers in
registration order]. The same array object is both stored back into the
metadata entry (when one exists) and assigned to the options slot. -/
def hookAssembly (meta : Metadata) (cls : ClassShape) (opts : Options)
    (hn : String) : List Nat :=
  let base := (jsLookup hn (meta.hooks.getD [])).getD []
  let withProto := match jsLookup hn cls.protoMethods with
    | some p => p :: base
    | none => base
  match jsLookup hn opts.hookSlots with
  | some o => o :: withProto
  | none => withProto

/-- The state of the metadata store after compilation: because `unshift`
mutates the stored arrays in place, every present hooks entry whose key is a
recognised lifecycle name now carries the prepended handlers. All other
channels are untouched. -/
def metaAfter (meta : Metadata) (cls : ClassShape) (opts : Options) :
    Metadata :=
  { meta with hooks := meta.hooks.map fun entries =>
      entries.map fun e =>
        if hookNames.contains e.1 then (e.1, hookAssembly meta cls opts e.1)
        else e }

/-- The assembled options object built by `Component` (source lines
73..186), section by section in source order. -/
def assembledOf (meta : Metadata) (cls : ClassShape) (opts : Options) :
    Assembled where
  provide := ProvideV.assembledP meta.provide opts.provide
  inject := injectAssembly meta opts
  props := propsAssembly meta opts
  computed := computedAssembly meta cls opts
  dataFactory :=
    { snapshot := dataPropsOf meta cls opts
      ctor := cls.classId
      optsData := opts.data }
  name := if cls.className = "" then opts.name else some cls.className
  emits := meta.emits
  expose := exposeAssembly meta opts
  watch := jsSpread meta.watch opts.watch
  methods := methodsAssembly cls opts
  hooks := hookNames.map fun hn => (hn, hookAssembly meta cls opts hn)
  setup := opts.setup <|> jsLookup "setup" cls.protoMethods
  mixins := cls.classMixins ++ opts.mixins
  statics := cls.statics.filter fun p =>
    !(excludedClassProperties.contains p.1)

/-- The class-to-options compiler, the body of the decorator returned by
`Component(options)` applied to a class. Source line 134,
`options.emits?.forEach(emits.add)`, calls the detached `Set.prototype.add`
with an `undefined` receiver, so compilation throws a `TypeError` as soon as
`options.emits` is a non-empty array; otherwise it returns the assembled
object together with the (possibly mutated) metadata store. -/
def Component (meta : Metadata) (cls : ClassShape) (opts : Options) :
    Except String (Assembled × Metadata) :=
  match opts.emits with
  | some (_ :: _) =>
      Except.error "TypeError: Set.prototype.add called on undefined receiver"
  | _ => Except.ok (assembledOf meta cls opts, metaAfter meta cls opts)

/-! ## Association-list lemmas -/

theorem jsLookup_append (k : String) (a b : List (String × α)) :
    jsLookup k (a ++ b) = (jsLookup k a <|> jsLookup k b) := by
  induction a with
  | nil => simp [jsLookup]
  | cons p rest ih =>
    by_cases h : p.1 = k
    · simp [jsLookup, h]
    · simp [jsLookup, h, ih]

theorem jsLookup_map_pair (f : String → α) (k : String) (l : List String)
    (h : k ∈ l) : jsLookup k (l.map fun x => (x, f x)) = some (f k) := by
  induction l with
  | nil => cases h
  | cons x rest ih =>
    rcases List.mem_cons.mp h with rfl | hmem
    · simp [jsLookup]
    · by_cases hx : x = k
      · subst hx; simp [jsLookup]
      · simpa [jsLookup, hx] using ih hmem

theorem jsLookup_jsSet_self (k : String) (v : α) (m : List (String × α)) :
    jsLookup k (jsSet k v m) = some v := by
  induction m with
  | nil => simp [jsSet, jsLookup]
  | cons p rest ih =>
    by_cases h : p.1 = k
    · simp [jsSet, h, jsLookup]
    · simp [jsSet, h, jsLookup, ih]

theorem jsLookup_jsSet_ne {k k' : String} (h : k ≠ k') (v : α)
    (m : List (String × α)) : jsLookup k (jsSet k' v m) = jsLookup k m := by
  induction m with
  | nil => simp [jsSet, jsLookup, Ne.symm h]
  | cons p rest ih =>
    by_cases hp : p.1 = k'
    · simp [jsSet, hp, jsLookup, Ne.symm h]
    · by_cases hk : p.1 = k <;> simp [jsSet, hp, jsLookup, hk, ih, h]

theorem jsLookup_mem {k : String} {v : α} {l : List (String × α)}
    (h : jsLookup k l = some v) : (k, v) ∈ l := by
  induction l with
  | nil => simp [jsLookup] at h
  | cons p rest ih =>
    obtain ⟨a, b⟩ := p
    by_cases hp : a = k
    · subst hp
      have hb : b = v := by simpa [jsLookup] using h
      subst hb
      exact List.mem_cons_self _ _
    · simp only [jsLookup, if_neg hp] at h
      exact List.mem_cons_of_mem _ (ih h)

theorem jsLookup_of_mem_nodup {l : List (String × α)}
    (hnd : (l.map Prod.fst).Nodup) {k : String} {v : α} (h : (k, v) ∈ l) :
    jsLookup k l = some v := by
  induction l with
  | nil => cases h
  | cons p rest ih =>
    obtain ⟨a, b⟩ := p
    rw [List.map_cons, List.nodup_cons] at hnd
    rcases List.mem_cons.mp h with heq | hmem
    · cases heq
      simp [jsLookup]
    · have hk : a ≠ k := by
        intro hak
        apply hnd.1
        rw [hak]
        exact List.mem_map.mpr ⟨(k, v), hmem, rfl⟩
      simpa [jsLookup, hk] using ih hnd.2 hmem

theorem jsLookup_spread_left (k : String) (m o : List (String × α)) :
    jsLookup k (m.map fun p => (p.1, (jsLookup p.1 o).getD p.2))
      = (jsLookup k m).map fun v => (jsLookup k o).getD v := by
  induction m with
  | nil => simp [jsLookup]
  | cons p rest ih =>
    by_cases hp : p.1 = k
    · simp [jsLookup, hp]
    · simp [jsLookup, hp, ih]

theorem jsLookup_filter_of_none {k : String} {m : List (String × α)}
    (hm : jsLookup k m = none) (o : List (String × α)) :
    jsLookup k (o.filter fun p => (jsLookup p.1 m).isNone) = jsLookup k o := by
  induction o with
  | nil => simp
  | cons q rest ih =>
    obtain ⟨a, b⟩ := q
    by_cases ha : a = k
    · subst ha
      simp [List.filter_cons, hm, jsLookup]
    · cases hq : (jsLookup a m).isNone <;>
        simp [List.filter_cons, hq, jsLookup, ha, ih]

theorem jsLookup_filter_of_some {k : String} {m : List (String × α)} {w : α}
    (hm : jsLookup k m = some w) (o : List (String × α)) :
    jsLookup k (o.filter fun p => (jsLookup p.1 m).isNone) = none := by
  induction o with
  | nil => simp [jsLookup]
  | cons q rest ih =>
    obtain ⟨a, b⟩ := q
    by_cases ha : a = k
    · subst ha
      simp [List.filter_cons, hm, ih]
    · cases hq : (jsLookup a m).isNone <;>
        simp [List.filter_cons, hq, jsLookup, ha, ih]

theorem jsLookup_jsSpread (k : String) (m o : List (String × α)) :
    jsLookup k (jsSpread m o) = (jsLookup k o <|> jsLookup k m) := by
  unfold jsSpread
  rw [jsLookup_append, jsLookup_spread_left]
  rcases hm : jsLookup k m with _ | v
  · rw [jsLookup_filter_of_none hm]
    rcases jsLookup k o with _ | w <;> simp
  · rw [jsLookup_filter_of_some hm]
    rcases jsLookup k o with _ | w <;> simp

theorem jsSpread_nil (m : List (String × α)) : jsSpread m [] = m := by
  unfold jsSpread
  simp [jsLookup]

/-- Inversion for the compiler: a successful run returns exactly the
assembled object and the post-compilation metadata store. -/
theorem Component_ok {meta : Metadata} {cls : ClassShape} {opts : Options}
    {a : Assembled} {m' : Metadata}
    (h : Component meta cls opts = Except.ok (a, m')) :
    a = assembledOf meta cls opts ∧ m' = metaAfter meta cls opts := by
  unfold Component at h
  rcases he : opts.emits with _ | l
  · rw [he] at h
    simp only [Except.ok.injEq, Prod.mk.injEq] at h
    exact ⟨h.1.symm, h.2.symm⟩
  · cases l with
    | nil =>
      rw [he] at h
      simp only [Except.ok.injEq, Prod.mk.injEq] at h
      exact ⟨h.1.symm, h.2.symm⟩
    | cons x xs =>
      rw [he] at h
      exact absurd h (by simp)

/-- The assembled hook list for one name, spelled out: the conventional
options handler comes first, then the same-named prototype method, then the
decorator-registered handlers in registration order. -/
theorem hookAssembly_eq (meta : Metadata) (cls : ClassShape) (opts : Options)
    (hn : String) :
    hookAssembly meta cls opts hn
      = (jsLookup hn opts.hookSlots).toList
        ++ (jsLookup hn cls.protoMethods).toList
        ++ (jsLookup hn (meta.hooks.getD [])).getD [] := by
  unfold hookAssembly
  rcases jsLookup hn opts.hookSlots with _ | o <;>
    rcases jsLookup hn cls.protoMethods with _ | p <;> simp

/-! ## The claims -/

/-- C1, counterexample. Register one `Hook('mounted')` handler (token 30) on
a class whose prototype has an eponymous `mounted` method (token 20), and
supply a conventional `mounted` option (token 10). The assembled list is
`[10, 20, 30]` — conventional handler first, prototype method second,
decorator handler last — not the claimed `[30, 10, 20]` (decorator handlers
first, conventional next, eponymous method last). -/
theorem C1_counterexample :
    (Component (Hook (some "mounted") 30 {})
        { protoMethods := [("mounted", 20)] }
        { hookSlots := [("mounted", 10)] }).toOption.map
        (fun r => jsLookup "mounted" r.1.hooks)
      = some (some [10, 20, 30])
    ∧ [10, 20, 30] ≠ [30, 10, 20] :=
  ⟨rfl, by decide⟩

/-- C1, amended: for every lifecycle name the assembled hook list is the
conventional options handler first (one entry), then the same-named
prototype method if present (added unconditionally, with no distinctness
check), then the decorator-registered handlers in registration order; so it
has N + (1 if a conventional handler exists) + (1 if an eponymous method
exists) entries. -/
theorem C1_hook_order (meta : Metadata) (cls : ClassShape) (opts : Options)
    (a : Assembled) (m' : Metadata)
    (h : Component meta cls opts = Except.ok (a, m'))
    (hn : String) (hhn : hn ∈ hookNames) :
    jsLookup hn a.hooks
      = some ((jsLookup hn opts.hookSlots).toList
          ++ (jsLookup hn cls.protoMethods).toList
          ++ (jsLookup hn (meta.hooks.getD [])).getD []) := by
  obtain ⟨ha, -⟩ := Component_ok h
  subst ha
  have hhooks : (assembledOf meta cls opts).hooks
      = hookNames.map fun x => (x, hookAssembly meta cls opts x) := rfl
  rw [hhooks, jsLookup_map_pair _ _ _ hhn, hookAssembly_eq]

/-- C1, witness for the amended theorem at a concrete class. -/
theorem C1_hook_order_witness :
    jsLookup "mounted"
        (assembledOf (Hook (some "mounted") 3 {})
          { protoMethods := [("mounted", 2)] }
          { hookSlots := [("mounted", 1)] }).hooks
      = some [1, 2, 3] := by
  have h := C1_hook_order (Hook (some "mounted") 3 {})
    { protoMethods := [("mounted", 2)] } { hookSlots := [("mounted", 1)] }
    _ _ rfl "mounted" (by decide)
  exact h.trans (by decide)

/-- C2, counterexample. With one decorator-registered `mounted` handler
(token 30) and an eponymous prototype method (token 20), compilation leaves
the hooks channel holding `[20, 30]` where the decorators had registered
`[30]`: the store is mutated. -/
theorem C2_counterexample :
    (Component (Hook (some "mounted") 30 {})
        { protoMethods := [("mounted", 20)] } {}).toOption.map
        (fun r => r.2.hooks)
      = some (some [("mounted", [20, 30])])
    ∧ (Hook (some "mounted") 30 ({} : Metadata)).hooks
      = some [("mounted", [30])]
    ∧ ([("mounted", [20, 30])] : List (String × List Nat))
      ≠ [("mounted", [30])] :=
  ⟨rfl, rfl, by decide⟩

/-- C2, amended: compilation leaves every metadata channel unchanged except
`hooks`, where each stored entry for a recognised lifecycle name receives
the prepended prototype method and conventional handler in place (the source
`unshift`s into the stored array). -/
theorem C2_frame (meta : Metadata) (cls : ClassShape) (opts : Options)
    (a : Assembled) (m' : Metadata)
    (h : Component meta cls opts = Except.ok (a, m')) :
    m'.watch = meta.watch ∧ m'.props = meta.props ∧ m'.emits = meta.emits
    ∧ m'.expose = meta.expose ∧ m'.ref = meta.ref
    ∧ m'.provide = meta.provide ∧ m'.inject = meta.inject
    ∧ m'.hooks = meta.hooks.map (fun entries => entries.map fun e =>
        if hookNames.contains e.1 then (e.1, hookAssembly meta cls opts e.1)
        else e) := by
  obtain ⟨-, hm⟩ := Component_ok h
  subst hm
  exact ⟨rfl, rfl, rfl, rfl, rfl, rfl, rfl, rfl⟩

/-- C2, witness for the frame theorem at a concrete class. -/
theorem C2_frame_witness :
    (metaAfter (PropD "p" (PropSpec.pspec 0) {}) {} {}).props
      = (PropD "p" (PropSpec.pspec 0) ({} : Metadata)).props :=
  (C2_frame (PropD "p" (PropSpec.pspec 0) {}) {} {} _ _ rfl).2.1

/-- C4, code bug. With the decorator registrations of the README example the
metadata set is `["bob", "marley", "jack"]` and, with no conventional
`emits`, the assembled section equals it; but as soon as `options.emits` is
a non-empty array, `options.emits?.forEach(emits.add)` calls the detached
`Set.prototype.add` on an `undefined` receiver and the compiler throws a
`TypeError` instead of producing the union the claim (and the obvious intent
of the line) describes. -/
theorem C4_emits_bug :
    Component (Emits ["jack", "bob"] (Emits ["bob", "marley"] {})) {}
        { emits := some ["jack"] }
      = Except.error "TypeError: Set.prototype.add called on undefined receiver"
    ∧ (Component (Emits ["jack", "bob"] (Emits ["bob", "marley"] {})) {}
        {}).toOption.map (fun r => r.1.emits)
      = some ["bob", "marley", "jack"] :=
  ⟨rfl, rfl⟩

/-- C6, confirmed: the `expose` key is absent exactly when both sources are
absent; when either source is non-empty the section is the metadata exposed
list followed by the conventional list. -/
theorem C6_expose (meta : Metadata) (cls : ClassShape) (opts : Options)
    (a : Assembled) (m' : Metadata)
    (h : Component meta cls opts = Except.ok (a, m')) :
    (meta.expose = none → opts.expose = none → a.expose = none)
    ∧ (∀ l, meta.expose = some l → l ≠ [] →
        a.expose = some (l ++ opts.expose.getD []))
    ∧ (∀ l, opts.expose = some l → l ≠ [] →
        a.expose = some (meta.expose.getD [] ++ l)) := by
  obtain ⟨ha, -⟩ := Component_ok h
  subst ha
  have hx : (assembledOf meta cls opts).expose = exposeAssembly meta opts :=
    rfl
  refine ⟨fun hme hoe => ?_, fun l hme _ => ?_, fun l hoe _ => ?_⟩
  · rw [hx]; simp [exposeAssembly, hme, hoe]
  · rw [hx]; simp [exposeAssembly, hme]
  · rw [hx]; simp [exposeAssembly, hoe]

/-- C6, witness: a class with no expose declarations and no conventional
expose option has the key absent; one with both sources gets the
concatenation. -/
theorem C6_expose_witness :
    (assembledOf {} {} {}).expose = none
    ∧ (assembledOf (Expose "e1" {}) {}
        ({ expose := some ["e2"] } : Options)).expose = some ["e1", "e2"] :=
  ⟨(C6_expose {} {} {} _ _ rfl).1 rfl rfl,
    (C6_expose (Expose "e1" {}) {} { expose := some ["e2"] } _ _ rfl).2.2
      ["e2"] rfl (by decide)⟩

/-- C8, code bug. A malformed (non-array, non-object) `options.inject` is
indeed absorbed as an empty map without error; but the claim that no
operation of the compiler throws under normal class definitions is wrong:
any non-empty conventional `emits` array makes compilation throw a
`TypeError` (detached `Set.prototype.add` handed to `forEach`). -/
theorem C8_throw_bug :
    Component {} {} { emits := some ["boogie"] }
      = Except.error "TypeError: Set.prototype.add called on undefined receiver"
    ∧ (Component {} {} { inject := some InjectOpts.mal }).toOption.map
        (fun r => r.1.inject) = some []
    ∧ (Component {} {} { inject := some InjectOpts.mal }).toOption.isSome
      = true :=
  ⟨rfl, rfl, rfl⟩

/-- C3, counterexample. On a class with one decorator-registered `mounted`
handler (token 30) and an eponymous prototype method (token 20), the first
compilation yields the hook list `[20, 30]` and, because the first run
prepended the prototype method into the shared metadata array, a second
compilation of the same class with the same (empty) conventional options
yields `[20, 20, 30]`: the two assembled objects are not structurally
equal. -/
theorem C3_counterexample :
    (Component (Hook (some "mounted") 30 {})
        { protoMethods := [("mounted", 20)] } {}).toOption.map
        (fun r => jsLookup "mounted" r.1.hooks)
      = some (some [20, 30])
    ∧ ((Component (Hook (some "mounted") 30 {})
        { protoMethods := [("mounted", 20)] } {}).toOption.bind fun r =>
          (Component r.2 { protoMethods := [("mounted", 20)] }
            {}).toOption.map fun r2 => jsLookup "mounted" r2.1.hooks)
      = some (some [20, 20, 30])
    ∧ (some [20, 30] : Option (List Nat)) ≠ some [20, 20, 30] :=
  ⟨rfl, rfl, by decide⟩

/-- C3, amended: re-compiling the same class with the same conventional
options yields a structurally equal assembled object provided no lifecycle
name both has a stored decorator handler list and a same-named prototype
method or conventional handler (otherwise the first run's in-place prepends
persist in the shared metadata arrays and the second run's hook lists
grow). -/
theorem C3_idempotent (meta : Metadata) (cls : ClassShape) (opts : Options)
    (a1 : Assembled) (m1 : Metadata) (a2 : Assembled) (m2 : Metadata)
    (hnd : ((meta.hooks.getD []).map Prod.fst).Nodup)
    (hq : ∀ hn ∈ hookNames, jsLookup hn (meta.hooks.getD []) = none
        ∨ (jsLookup hn cls.protoMethods = none
            ∧ jsLookup hn opts.hookSlots = none))
    (h1 : Component meta cls opts = Except.ok (a1, m1))
    (h2 : Component m1 cls opts = Except.ok (a2, m2)) :
    a1 = a2 ∧ m2 = m1 := by
  have key : metaAfter meta cls opts = meta := by
    unfold metaAfter
    rcases hh : meta.hooks with _ | entries
    · simp only [Option.map_none']
      rw [← hh]
    · have hgetd : meta.hooks.getD [] = entries := by rw [hh]; rfl
      have hnd' : (entries.map Prod.fst).Nodup := by
        rw [hgetd] at hnd
        exact hnd
      have hent : entries.map (fun e =>
          if hookNames.contains e.1
          then (e.1, hookAssembly meta cls opts e.1) else e) = entries := by
        have hcg := List.map_congr_left (l := entries)
          (f := fun e => if hookNames.contains e.1
            then (e.1, hookAssembly meta cls opts e.1) else e) (g := id) ?_
        · simpa using hcg
        · intro e he
          dsimp only [id]
          by_cases hc : hookNames.contains e.1
          · have hmem : e.1 ∈ hookNames := by simpa using hc
            have hlk : jsLookup e.1 (meta.hooks.getD []) = some e.2 := by
              rw [hgetd]
              exact jsLookup_of_mem_nodup hnd' (by rw [Prod.mk.eta]; exact he)
            rcases hq e.1 hmem with hnone | ⟨hp, hs⟩
            · rw [hlk] at hnone
              cases hnone
            · have hha : hookAssembly meta cls opts e.1 = e.2 := by
                rw [hookAssembly_eq, hp, hs, hlk]
                simp
              rw [if_pos hc, hha]
          · rw [if_neg hc]
      simp only [Option.map_some']
      rw [hent, ← hh]
  obtain ⟨ha1, hm1⟩ := Component_ok h1
  have hm1' : m1 = meta := hm1.trans key
  subst hm1'
  have hh12 := h1.symm.trans h2
  simp only [Except.ok.injEq, Prod.mk.injEq] at hh12
  exact ⟨hh12.1, hh12.2.symm⟩

/-- C3, witness: a class whose only hook sources are decorator registrations
(no eponymous method, no conventional handler) compiles to the same
assembled object twice. -/
theorem C3_idempotent_witness :
    assembledOf (Hook (some "mounted") 9 {}) {} {}
      = assembledOf (metaAfter (Hook (some "mounted") 9 {}) {} {}) {} {}
    ∧ metaAfter (metaAfter (Hook (some "mounted") 9 {}) {} {}) {} {}
      = metaAfter (Hook (some "mounted") 9 {}) {} {} :=
  C3_idempotent (Hook (some "mounted") 9 {}) {} {} _ _ _ _
    (by decide) (by decide) rfl rfl

/-- C5, counterexample. A member declared as a prop (decorated `foo`) does
appear among the keys of the data factory's output when the conventional
`options.data` factory itself returns a `foo` key: the factory spreads the
`options.data()` result last, unfiltered. -/
theorem C5_counterexample :
    (Component (PropD "foo" (PropSpec.pspec 0) {})
        { instanceFields := [("foo", JSVal.num 1)] }
        { data := some [("foo", JSVal.num 2)] }).toOption.map
        (fun r => jsLookup "foo" (dataFactoryRun r.1.dataFactory))
      = some (some (JSVal.num 2))
    ∧ (some (JSVal.num 2) : Option JSVal) ≠ none :=
  ⟨rfl, by decide⟩

/-- C5, amended: a member whose merged prop entry is truthy is excluded by
the data classifier, so its name is absent from the data factory's output
whenever the conventional options supply no data factory (the member name
`constructor` is unavailable to class fields and is excluded). -/
theorem C5_data_excludes_props (meta : Metadata) (cls : ClassShape)
    (opts : Options) (a : Assembled) (m' : Metadata) (nm : String)
    (h : Component meta cls opts = Except.ok (a, m'))
    (hp : propTruthy (jsLookup nm (propsAssembly meta opts)) = true)
    (hd : opts.data = none) (hc : nm ≠ "constructor") :
    jsLookup nm (dataFactoryRun a.dataFactory) = none := by
  obtain ⟨ha, -⟩ := Component_ok h
  subst ha
  have hdf : (assembledOf meta cls opts).dataFactory
      = { snapshot := dataPropsOf meta cls opts, ctor := cls.classId,
          optsData := opts.data } := rfl
  rw [hdf]
  unfold dataFactoryRun
  simp only [hd, Option.getD_none]
  rw [jsSpread_nil, jsLookup_jsSpread]
  have h1 : jsLookup nm [("constructor", JSVal.clsv cls.classId)] = none := by
    simp [jsLookup, Ne.symm hc]
  rw [h1]
  show jsLookup nm (dataPropsOf meta cls opts) = none
  rcases hl : jsLookup nm (dataPropsOf meta cls opts) with _ | v
  · rfl
  · exfalso
    have hmem := jsLookup_mem hl
    have hflt := List.mem_filter.mp hmem
    have hpred := hflt.2
    simp [hp] at hpred

/-- C5, witness for the amended theorem at a concrete class. -/
theorem C5_data_excludes_props_witness :
    jsLookup "foo"
        (dataFactoryRun (assembledOf (PropD "foo" (PropSpec.pspec 0) {})
          { instanceFields := [("foo", JSVal.num 1)] } {}).dataFactory)
      = none :=
  C5_data_excludes_props (PropD "foo" (PropSpec.pspec 0) {})
    { instanceFields := [("foo", JSVal.num 1)] } {} _ _ "foo" rfl rfl rfl
    (by decide)

/-- C7, confirmed: a conventional inject list `['a','b']` assembles exactly
like the map with empty per-key configuration, and the assembled inject map
takes the normalised options value on a key conflict, falling back to the
metadata value. -/
theorem C7_inject_norm (meta : Metadata) (cls : ClassShape) (opts : Options) :
    Component meta cls
        { opts with inject := some (InjectOpts.arr ["a", "b"]) }
      = Component meta cls
        { opts with inject := some (InjectOpts.obj
            [("a", InjectVal.emptyObj), ("b", InjectVal.emptyObj)]) }
    ∧ ∀ a m', Component meta cls opts = Except.ok (a, m') →
        ∀ k, jsLookup k a.inject
          = (jsLookup k (normalizeInject opts.inject)
              <|> jsLookup k meta.inject) := by
  constructor
  · rfl
  · intro a m' h k
    obtain ⟨ha, -⟩ := Component_ok h
    subst ha
    exact jsLookup_jsSpread k meta.inject (normalizeInject opts.inject)

/-- C7, witness: the list and map forms produce equal compilations, and on a
key conflict the options value wins over a decorator `Inject`
registration. -/
theorem C7_inject_norm_witness :
    Component {} {} { inject := some (InjectOpts.arr ["a", "b"]) }
      = Component {} {} { inject := some (InjectOpts.obj
          [("a", InjectVal.emptyObj), ("b", InjectVal.emptyObj)]) }
    ∧ jsLookup "a" (assembledOf (Inject none none "a" {}) {}
        ({ inject := some (InjectOpts.arr ["a", "b"]) } : Options)).inject
      = some InjectVal.emptyObj := by
  constructor
  · exact (C7_inject_norm {} {} {}).1
  · have h := (C7_inject_norm (Inject none none "a" {}) {}
      { inject := some (InjectOpts.arr ["a", "b"]) }).2 _ _ rfl "a"
    exact h.trans (by decide)

/-- C9, counterexample. The data factory's `constructor` key is bound to the
class only by position: a conventional `options.data` factory returning its
own `constructor` key overrides the binding, because its result is spread
last. -/
theorem C9_counterexample :
    (Component {} ({ classId := 5 } : ClassShape)
        ({ data := some [("constructor", JSVal.num 0)] } : Options)).toOption.map
        (fun r => jsLookup "constructor" (dataFactoryRun r.1.dataFactory))
      = some (some (JSVal.num 0))
    ∧ JSVal.num 0 ≠ JSVal.clsv 5 :=
  ⟨rfl, by decide⟩

/-- C9, amended: every invocation of the assembled data factory returns an
object with a `constructor` key — even for a class with no data members —
and that key is bound to the class itself whenever the `options.data` result
does not itself carry a `constructor` key (which otherwise wins). -/
theorem C9_constructor_key (meta : Metadata) (cls : ClassShape)
    (opts : Options) (a : Assembled) (m' : Metadata)
    (h : Component meta cls opts = Except.ok (a, m')) :
    (jsLookup "constructor" (dataFactoryRun a.dataFactory)).isSome = true
    ∧ (jsLookup "constructor" (opts.data.getD []) = none →
        jsLookup "constructor" (dataFactoryRun a.dataFactory)
          = some (JSVal.clsv cls.classId)) := by
  obtain ⟨ha, -⟩ := Component_ok h
  subst ha
  have hdf : (assembledOf meta cls opts).dataFactory
      = { snapshot := dataPropsOf meta cls opts, ctor := cls.classId,
          optsData := opts.data } := rfl
  rw [hdf]
  unfold dataFactoryRun
  rw [jsLookup_jsSpread, jsLookup_jsSpread]
  have hctor : jsLookup "constructor"
      [("constructor", JSVal.clsv cls.classId)]
      = some (JSVal.clsv cls.classId) := by simp [jsLookup]
  rw [hctor]
  constructor
  · rcases jsLookup "constructor" (opts.data.getD []) with _ | w <;> simp
  · intro h0
    rw [h0]
    simp

/-- C9, witness: a class with no data members still gets the `constructor`
binding. -/
theorem C9_constructor_key_witness :
    jsLookup "constructor"
        (dataFactoryRun (assembledOf {} ({ classId := 5 } : ClassShape)
          {}).dataFactory)
      = some (JSVal.clsv 5) :=
  (C9_constructor_key {} { classId := 5 } {} _ _ rfl).2 rfl

/-- C10, confirmed: applying `Hook` with no name registers the handler under
the string key `"undefined"` (the JavaScript coercion of the `undefined`
property key); that key is not a lifecycle name, and the registration
changes neither the assembled hook lists nor the assembled methods — the
handler is silently never installed. -/
theorem C10_hook_undefined (m : Metadata) (hfn : Nat) (cls : ClassShape)
    (opts : Options) :
    jsLookup "undefined" ((Hook none hfn m).hooks.getD [])
      = some ((jsLookup "undefined" (m.hooks.getD [])).getD [] ++ [hfn])
    ∧ "undefined" ∉ hookNames
    ∧ ∀ a1 m1 a2 m2, Component m cls opts = Except.ok (a1, m1)
        → Component (Hook none hfn m) cls opts = Except.ok (a2, m2)
        → a2.hooks = a1.hooks ∧ a2.methods = a1.methods := by
  refine ⟨?_, by decide, ?_⟩
  · show jsLookup "undefined"
        (jsSet "undefined"
          ((jsLookup "undefined" (m.hooks.getD [])).getD [] ++ [hfn])
          (m.hooks.getD []))
      = some ((jsLookup "undefined" (m.hooks.getD [])).getD [] ++ [hfn])
    exact jsLookup_jsSet_self _ _ _
  · intro a1 m1 a2 m2 h1 h2
    obtain ⟨ha1, -⟩ := Component_ok h1
    obtain ⟨ha2, -⟩ := Component_ok h2
    subst ha1
    subst ha2
    constructor
    · show hookNames.map
          (fun hn => (hn, hookAssembly (Hook none hfn m) cls opts hn))
        = hookNames.map (fun hn => (hn, hookAssembly m cls opts hn))
      apply List.map_congr_left
      intro hn hhn
      have hne : hn ≠ "undefined" := by
        have : ∀ x ∈ hookNames, x ≠ "undefined" := by decide
        exact this hn hhn
      have hbase : jsLookup hn ((Hook none hfn m).hooks.getD [])
          = jsLookup hn (m.hooks.getD []) := by
        show jsLookup hn (jsSet "undefined"
            ((jsLookup "undefined" (m.hooks.getD [])).getD [] ++ [hfn])
            (m.hooks.getD []))
          = jsLookup hn (m.hooks.getD [])
        exact jsLookup_jsSet_ne hne _ _
      unfold hookAssembly
      rw [hbase]
    · rfl

/-- C10, witness at a concrete class: a `Hook()` registration with token 7
lands under `"undefined"` and leaves the assembled `mounted` list alone. -/
theorem C10_hook_undefined_witness :
    jsLookup "undefined" ((Hook none 7 ({} : Metadata)).hooks.getD [])
      = some [7]
    ∧ (assembledOf (Hook none 7 {}) { protoMethods := [("foo", 8)] }
        {}).hooks
      = (assembledOf {} { protoMethods := [("foo", 8)] } {}).hooks := by
  have h := C10_hook_undefined {} 7 { protoMethods := [("foo", 8)] } {}
  refine ⟨h.1.trans (by decide), ?_⟩
  exact (h.2.2 _ _ _ _ rfl rfl).1

end VueClassApi
